import Mathlib

/-!
Verification of the storage/retrieval core of `openrecall`
(`openrecall/database.py`, with its caller `openrecall/app.py`).

Shallow embedding conventions:
* A float32 value is modelled by its 32-bit IEEE-754 bit pattern, a `Nat`
  below `2 ^ 32`.  `numpy.ndarray.astype(np.float32).tobytes()` writes each
  element as four little-endian bytes; `np.frombuffer(data, dtype=np.float32)`
  reads them back.  On bit patterns both are exact, so the byte-level
  round-trip is faithfully captured without modelling float arithmetic.
* The sqlite store is a list of rows plus the AUTOINCREMENT counter; the
  postgresql store is the same with the SERIAL counter.  The `timestamp`
  UNIQUE constraint of the schema is carried as a hypothesis where needed.
* `np.argsort` is modelled as the stable ascending argsort (ties resolved by
  index order).  numpy's default argsort kind is quicksort (introsort),
  which is documented as not stable, so the model refines the code's tie
  order; the two provably coincide in the insertion-sort regime (arrays of
  at most 16 elements, numpy's `SMALL_QUICKSORT` cutoff), and every theorem
  whose conclusion depends on tie order is scoped to that regime — the
  search-correctness conclusions themselves are tie-agnostic.
* Similarity scores are modelled over `ℚ`; `cosine_similarity` lives in
  `openrecall/nlp.py`, outside the sources at hand, so search theorems
  quantify over an arbitrary score function of the stored embedding, which
  subsumes `fun e => cosine_similarity q e` for every query `q`.
-/

namespace OpenRecall

/-- `embedding.astype(np.float32).tobytes()` (sqlite backend, database.py
line 45): each 32-bit word becomes four little-endian bytes. -/
def serialize_embedding_sqlite (v : List ℕ) : List ℕ :=
  v.flatMap fun x =>
    [x % 256, x / 256 % 256, x / 256 ^ 2 % 256, x / 256 ^ 3 % 256]

/-- `np.frombuffer(data, dtype=np.float32)` (sqlite backend, database.py
line 48): reads consecutive 4-byte groups as 32-bit words; a trailing group
shorter than four bytes cannot occur for buffers written by `tobytes`. -/
def deserialize_embedding_sqlite : List ℕ → List ℕ
  | b0 :: b1 :: b2 :: b3 :: rest =>
      (b0 + 256 * b1 + 256 ^ 2 * b2 + 256 ^ 3 * b3)
        :: deserialize_embedding_sqlite rest
  | _ => []

/-- `serialize_embedding` of the postgresql backend (database.py line 79):
the identity, pgvector stores the vector natively. -/
def serialize_embedding_pg (v : List ℕ) : List ℕ := v

/-- `deserialize_embedding` of the postgresql backend (database.py line 82):
the identity. -/
def deserialize_embedding_pg (v : List ℕ) : List ℕ := v

/-- The two accepted backends (module-level `scheme` in database.py). -/
inductive Scheme where
  | sqlite
  | postgresql
deriving DecidableEq, Repr

/-- Backend dispatch of `serialize_embedding`. -/
def serialize_embedding : Scheme → List ℕ → List ℕ
  | .sqlite, v => serialize_embedding_sqlite v
  | .postgresql, v => serialize_embedding_pg v

/-- Backend dispatch of `deserialize_embedding`. -/
def deserialize_embedding : Scheme → List ℕ → List ℕ
  | .sqlite, v => deserialize_embedding_sqlite v
  | .postgresql, v => deserialize_embedding_pg v

/-- One row of the `entries` table (schema of `create_db`, database.py
lines 98-111).  `embedding` holds the stored payload: the serialized bytes
on sqlite, the vector itself on postgresql. -/
structure Row where
  id : ℕ
  app : String
  title : String
  text : String
  timestamp : ℤ
  embedding : List ℕ
  filename : String
  ocr_data : String
deriving DecidableEq, Repr

/-- The persistent store: the rows of `entries` in insertion order plus the
backend's id counter (AUTOINCREMENT / SERIAL). -/
structure DB where
  rows : List Row
  nextId : ℕ
deriving DecidableEq, Repr

/-- The `Entry` namedtuple (database.py line 12). -/
structure Entry where
  id : ℕ
  app : String
  title : String
  text : String
  timestamp : ℤ
  embedding : List ℕ
  filename : String
  ocr_data : String
deriving DecidableEq, Repr

instance : Inhabited Entry :=
  ⟨⟨0, "", "", "", 0, [], "", ""⟩⟩

/-- Building an `Entry` from a fetched row, deserializing the embedding
(database.py lines 140-153). -/
def rowToEntry (sc : Scheme) (r : Row) : Entry :=
  { id := r.id
    app := r.app
    title := r.title
    text := r.text
    timestamp := r.timestamp
    embedding := deserialize_embedding sc r.embedding
    filename := r.filename
    ocr_data := r.ocr_data }

/-- `ORDER BY timestamp DESC`: rows sorted by descending timestamp.  SQL
leaves the order of equal keys unspecified; the schema makes `timestamp`
unique, so no tie ever arises for stores satisfying the constraint. -/
def sortByTimestampDesc (rows : List Row) : List Row :=
  List.insertionSort (fun a b => b.timestamp ≤ a.timestamp) rows

/-- `get_all_entries` (database.py lines 134-155): select every row ordered
by timestamp descending and deserialize each embedding. -/
def get_all_entries (sc : Scheme) (db : DB) : List Entry :=
  (sortByTimestampDesc db.rows).map (rowToEntry sc)

/-- `get_timestamps` (database.py lines 157-163). -/
def get_timestamps (db : DB) : List ℤ :=
  (sortByTimestampDesc db.rows).map Row.timestamp

/-- `insert_entry` (database.py lines 165-195).  Both backends resolve a
timestamp collision without raising (`INSERT OR IGNORE` / `ON CONFLICT
(timestamp) DO NOTHING`): no row is inserted and `None` is returned.  On a
fresh timestamp the row is appended with the backend-assigned id; sqlite
re-selects the id by timestamp, postgresql gets it from `RETURNING id`.  On
a postgresql conflict the SERIAL sequence value is still consumed. -/
def insert_entry (sc : Scheme) (db : DB) (text : String) (timestamp : ℤ)
    (embedding : List ℕ) (app : String) (title : String) (filename : String)
    (ocr_data : String) : DB × Option ℕ :=
  let serialized := serialize_embedding sc embedding
  if db.rows.any fun r => r.timestamp = timestamp then
    match sc with
    | .sqlite => (db, none)
    | .postgresql => ({ db with nextId := db.nextId + 1 }, none)
  else
    let newRow : Row :=
      { id := db.nextId
        app := app
        title := title
        text := text
        timestamp := timestamp
        embedding := serialized
        filename := filename
        ocr_data := ocr_data }
    ({ rows := db.rows ++ [newRow], nextId := db.nextId + 1 },
      some db.nextId)

/-- The comparison `np.argsort` sorts indices by: smaller value first, equal
values by index order (stability of the modelled argsort, cf. the header
note). -/
def argsortRel (xs : List ℚ) (i j : ℕ) : Prop :=
  xs.getD i 0 < xs.getD j 0 ∨ (xs.getD i 0 = xs.getD j 0 ∧ i ≤ j)

instance (xs : List ℚ) : DecidableRel (argsortRel xs) := fun i j => by
  unfold argsortRel; infer_instance

/-- `np.argsort(similarities)`: the indices `0 .. n-1` in stable ascending
order of their values. -/
def argsort (xs : List ℚ) : List ℕ :=
  List.insertionSort (argsortRel xs) (List.range xs.length)

/-- The index list `np.argsort(similarities)[::-1][:top_k]` computed by the
sqlite branch of `get_sorted_entries` (database.py line 203), for the score
function `sim` standing for `cosine_similarity query_embedding ·`. -/
def sortedIndices (sim : List ℕ → ℚ) (entries : List Entry) (top_k : ℕ) :
    List ℕ :=
  let similarities := entries.map fun e => sim e.embedding
  (argsort similarities).reverse.take top_k

/-- `get_sorted_entries` on the sqlite backend (database.py lines 197-204):
load all entries, return `[]` on an empty store, otherwise rank every entry
by its score and keep the first `top_k` indices of the reversed ascending
argsort. -/
def get_sorted_entries (sim : List ℕ → ℚ) (db : DB) (top_k : ℕ) :
    List Entry :=
  let entries := get_all_entries .sqlite db
  if entries.isEmpty then []
  else (sortedIndices sim entries top_k).map fun i => entries.getD i default

/-- The schema-level state touched by `create_db`: whether the `entries`
table exists, whether it carries the UNIQUE constraint on `timestamp`,
whether `idx_timestamp` exists, and (postgresql) whether the `vector`
extension is enabled. -/
structure SchemaState where
  tableExists : Bool
  tableHasUnique : Bool
  indexExists : Bool
  vectorExt : Bool
deriving DecidableEq, Repr

/-- `create_db` (database.py lines 92-132).  Both backends: `CREATE TABLE IF
NOT EXISTS entries (... timestamp INTEGER UNIQUE ...)` then `CREATE INDEX IF
NOT EXISTS idx_timestamp`.  Postgresql first enables the `vector` extension,
and afterwards queries `pg_constraint` and adds the UNIQUE constraint on
`timestamp` when the (possibly pre-existing) table lacks it. -/
def create_db : Scheme → SchemaState → SchemaState
  | .sqlite, s =>
      let s1 := if s.tableExists then s
                else { s with tableExists := true, tableHasUnique := true }
      { s1 with indexExists := true }
  | .postgresql, s =>
      let s0 := { s with vectorExt := true }
      let s1 := if s0.tableExists then s0
                else { s0 with tableExists := true, tableHasUnique := true }
      let s2 := { s1 with indexExists := true }
      if s2.tableHasUnique then s2 else { s2 with tableHasUnique := true }

/-- The result of `urlparse(db_url)` as `get_conn_params` consumes it:
scheme, credentials, host, optional port, and path. -/
structure ParsedUrl where
  scheme : String
  username : Option String
  password : Option String
  hostname : Option String
  port : Option ℕ
  path : String
deriving DecidableEq, Repr

/-- The configuration dictionaries `get_conn_params` returns. -/
inductive ConnParams where
  | sqliteParams (path : String)
  | postgresqlParams (user : Option String) (password : Option String)
      (host : Option String) (port : ℕ) (dbname : String)
deriving DecidableEq, Repr

/-- `get_conn_params` (database.py lines 14-29): dispatch on the parsed
scheme; sqlite keeps the path, postgresql collects the credentials with
`parsed.port or 5432` and the path stripped of leading slashes as dbname;
any other scheme raises `ValueError` ("Unsupported database scheme"). -/
def get_conn_params (u : ParsedUrl) : Except String ConnParams :=
  if u.scheme = "sqlite" then
    .ok (.sqliteParams u.path)
  else if u.scheme = "postgresql" then
    .ok (.postgresqlParams u.username u.password u.hostname
      (u.port.getD 5432) (String.mk (u.path.toList.dropWhile (· = '/'))))
  else
    .error ("Unsupported database scheme: " ++ u.scheme)

/-- Outcome of one store operation run against a backend that may raise:
the returned value (or the propagated backend exception) together with
whether `conn.close()` was reached. -/
structure OpRun (α : Type) where
  result : Except Unit α
  connClosed : Bool

/-- `get_all_entries` with its connection lifecycle made explicit
(database.py lines 134-155): `conn = get_connection()` on entry, the
`SELECT` may raise, and `conn.close()` is only on the straight-line path —
the function body has no try/finally, so a raising backend call skips it. -/
def get_all_entries_run (sc : Scheme) (db : DB) (backendRaises : Bool) :
    OpRun (List Entry) :=
  if backendRaises then { result := .error (), connClosed := false }
  else { result := .ok (get_all_entries sc db), connClosed := true }

/-- `insert_entry` with its connection lifecycle made explicit (database.py
lines 165-195): same straight-line shape, no try/finally around the
INSERT. -/
def insert_entry_run (sc : Scheme) (db : DB) (text : String) (timestamp : ℤ)
    (embedding : List ℕ) (app : String) (title : String) (filename : String)
    (ocr_data : String) (backendRaises : Bool) : OpRun (DB × Option ℕ) :=
  if backendRaises then { result := .error (), connClosed := false }
  else
    { result := .ok (insert_entry sc db text timestamp embedding app title
        filename ocr_data)
      connClosed := true }

/-- `get_timestamps` with its connection lifecycle made explicit
(database.py lines 157-163): open, SELECT (may raise), close on the
straight-line path only. -/
def get_timestamps_run (db : DB) (backendRaises : Bool) : OpRun (List ℤ) :=
  if backendRaises then { result := .error (), connClosed := false }
  else { result := .ok (get_timestamps db), connClosed := true }

/-- `create_db` with its connection lifecycle made explicit (database.py
lines 92-132): open, DDL statements (any may raise), commit, close on the
straight-line path only. -/
def create_db_run (sc : Scheme) (s : SchemaState) (backendRaises : Bool) :
    OpRun SchemaState :=
  if backendRaises then { result := .error (), connClosed := false }
  else { result := .ok (create_db sc s), connClosed := true }

/-- The sqlite branch of `get_sorted_entries` (database.py lines 198-204)
opens no connection of its own: the one it uses is opened inside its
`get_all_entries` call, so its lifecycle is that of `get_all_entries_run`,
and a raising backend call propagates out with that inner connection left
open. -/
def get_sorted_entries_run (sim : List ℕ → ℚ) (db : DB) (top_k : ℕ)
    (backendRaises : Bool) : OpRun (List Entry) :=
  let inner := get_all_entries_run .sqlite db backendRaises
  { result := inner.result.map fun _ => get_sorted_entries sim db top_k
    connClosed := inner.connClosed }

/-- The postgresql branch of `get_sorted_entries` (database.py lines
205-228) opens its own connection and runs the vector-index SELECT; the
ranked rows `pgRows` are produced server-side by the native strategy (not
modelled here — only the connection lifecycle is at issue), and again
`conn.close()` sits on the straight-line path only. -/
def get_sorted_entries_pg_run (pgRows : List Entry) (backendRaises : Bool) :
    OpRun (List Entry) :=
  if backendRaises then { result := .error (), connClosed := false }
  else { result := .ok pgRows, connClosed := true }

/-! ### Helper lemmas -/

lemma byte_recompose (x : ℕ) (hx : x < 2 ^ 32) :
    x % 256 + 256 * (x / 256 % 256) + 256 ^ 2 * (x / 256 ^ 2 % 256)
      + 256 ^ 3 * (x / 256 ^ 3 % 256) = x := by
  have h2 : (256 : ℕ) ^ 2 = 65536 := by norm_num
  have h3 : (256 : ℕ) ^ 3 = 16777216 := by norm_num
  have h32 : (2 : ℕ) ^ 32 = 4294967296 := by norm_num
  rw [h2, h3] at *
  rw [h32] at hx
  omega

lemma sqlite_roundtrip (v : List ℕ) (hv : ∀ x ∈ v, x < 2 ^ 32) :
    deserialize_embedding_sqlite (serialize_embedding_sqlite v) = v := by
  induction v with
  | nil => rfl
  | cons x t ih =>
      have hx : x < 2 ^ 32 := hv x (List.mem_cons_self x t)
      have ht : ∀ y ∈ t, y < 2 ^ 32 := fun y hy => hv y (List.mem_cons_of_mem x hy)
      simp only [serialize_embedding_sqlite, List.flatMap_cons] at *
      show deserialize_embedding_sqlite
        (x % 256 :: x / 256 % 256 :: x / 256 ^ 2 % 256 :: x / 256 ^ 3 % 256
          :: serialize_embedding_sqlite t) = x :: t
      rw [deserialize_embedding_sqlite]
      rw [show serialize_embedding_sqlite t
            = t.flatMap fun y =>
                [y % 256, y / 256 % 256, y / 256 ^ 2 % 256, y / 256 ^ 3 % 256]
          from rfl] at *
      rw [ih ht]
      congr 1
      have := byte_recompose x hx
      linarith

/-! ### C6: embedding round-trip on both backends -/

/-- C6: for every float32 vector `v` (each element a 32-bit pattern),
deserializing the serialization returns `v` exactly, on the sqlite backend
(bytes) and on the postgresql backend (identity). -/
theorem embedding_roundtrip (sc : Scheme) (v : List ℕ)
    (hv : ∀ x ∈ v, x < 2 ^ 32) :
    deserialize_embedding sc (serialize_embedding sc v) = v := by
  cases sc with
  | sqlite => exact sqlite_roundtrip v hv
  | postgresql => rfl

/-- Witness for C6 at a concrete 384-element vector. -/
theorem embedding_roundtrip_witness :
    (∀ x ∈ List.replicate 384 (5 : ℕ), x < 2 ^ 32) ∧
      deserialize_embedding .sqlite
        (serialize_embedding .sqlite (List.replicate 384 5))
        = List.replicate 384 5 ∧
      deserialize_embedding .postgresql
        (serialize_embedding .postgresql (List.replicate 384 5))
        = List.replicate 384 5 := by
  refine ⟨?_, ?_, ?_⟩
  · intro x hx
    have := List.eq_of_mem_replicate hx
    omega
  · exact embedding_roundtrip .sqlite (List.replicate 384 5)
      (fun x hx => by have := List.eq_of_mem_replicate hx; omega)
  · exact embedding_roundtrip .postgresql (List.replicate 384 5)
      (fun x hx => by have := List.eq_of_mem_replicate hx; omega)

/-! ### C7: backend selector -/

/-- C7: `get_conn_params` returns the path configuration for the sqlite
scheme, the credential configuration with default port 5432 for the
postgresql scheme, and raises exactly for every other scheme. -/
theorem get_conn_params_spec (u : ParsedUrl) :
    (u.scheme = "sqlite" →
      get_conn_params u = Except.ok (ConnParams.sqliteParams u.path)) ∧
    (u.scheme = "postgresql" →
      get_conn_params u = Except.ok (ConnParams.postgresqlParams u.username
        u.password u.hostname (u.port.getD 5432)
        (String.mk (u.path.toList.dropWhile (· = '/')))) ∧
      (u.port = none → u.port.getD 5432 = 5432)) ∧
    (u.scheme ≠ "sqlite" ∧ u.scheme ≠ "postgresql" ↔
      get_conn_params u =
        Except.error ("Unsupported database scheme: " ++ u.scheme)) := by
  unfold get_conn_params
  by_cases h1 : u.scheme = "sqlite" <;> by_cases h2 : u.scheme = "postgresql" <;>
    first
      | (simp [h1, h2]; intro hp; simp [hp])
      | simp [h1, h2]

/-- Witness for C7: a postgresql descriptor without a port gets port 5432,
and an unknown scheme is rejected. -/
theorem get_conn_params_spec_witness :
    get_conn_params ⟨"postgresql", some "u", some "p", some "h", none, "/mydb"⟩
      = Except.ok (ConnParams.postgresqlParams (some "u") (some "p")
          (some "h") 5432 "mydb") ∧
    get_conn_params ⟨"mysql", none, none, none, none, ""⟩
      = Except.error "Unsupported database scheme: mysql" := by
  constructor
  · exact ((get_conn_params_spec
      ⟨"postgresql", some "u", some "p", some "h", none, "/mydb"⟩).2.1 rfl).1
  · exact (get_conn_params_spec ⟨"mysql", none, none, none, none, ""⟩).2.2.mp
      ⟨by decide, by decide⟩

/-! ### C8: schema creation is idempotent -/

/-- C8: `create_db` is idempotent on the schema state, and afterwards the
table, the timestamp index and the timestamp uniqueness constraint exist —
the postgresql branch adds the constraint even to a pre-existing table that
lacks it; a sqlite table can only pre-exist with the inline UNIQUE it was
created with, which the hypothesis records. -/
theorem create_db_idempotent (sc : Scheme) (s : SchemaState)
    (h : sc = Scheme.sqlite → s.tableExists = true → s.tableHasUnique = true) :
    create_db sc (create_db sc s) = create_db sc s ∧
    (create_db sc s).tableExists = true ∧
    (create_db sc s).indexExists = true ∧
    (create_db sc s).tableHasUnique = true := by
  cases sc <;> rcases s with ⟨te, tu, ie, ve⟩ <;>
    cases te <;> cases tu <;> cases ie <;> cases ve <;>
    simp_all [create_db]

/-- Witness for C8 on the empty sqlite schema state. -/
theorem create_db_idempotent_witness :
    create_db .sqlite (create_db .sqlite ⟨false, false, false, false⟩)
      = create_db .sqlite ⟨false, false, false, false⟩ ∧
    (create_db .sqlite ⟨false, false, false, false⟩).tableExists = true ∧
    (create_db .sqlite ⟨false, false, false, false⟩).indexExists = true ∧
    (create_db .sqlite ⟨false, false, false, false⟩).tableHasUnique = true :=
  create_db_idempotent .sqlite ⟨false, false, false, false⟩
    (fun _ hte => by cases hte)

/-! ### C1: duplicate-timestamp insert is a silent no-op -/

/-- C1: when some stored row already carries the given timestamp,
`insert_entry` returns `none` (no error), creates no row, and leaves every
stored row — in particular the colliding one — unchanged. -/
theorem insert_entry_duplicate_noop (sc : Scheme) (db : DB) (text : String)
    (timestamp : ℤ) (embedding : List ℕ) (app : String) (title : String)
    (filename : String) (ocr_data : String)
    (hdup : ∃ r ∈ db.rows, r.timestamp = timestamp) :
    (insert_entry sc db text timestamp embedding app title filename
        ocr_data).1.rows = db.rows ∧
    (insert_entry sc db text timestamp embedding app title filename
        ocr_data).2 = none := by
  have hany : (db.rows.any fun r => r.timestamp = timestamp) = true := by
    rw [List.any_eq_true]
    obtain ⟨r, hr, hts⟩ := hdup
    exact ⟨r, hr, by simp [hts]⟩
  cases sc <;> simp [insert_entry, hany]

/-- Witness for C1: inserting at the already-present timestamp 100. -/
theorem insert_entry_duplicate_noop_witness :
    (insert_entry .sqlite
        ⟨[⟨1, "a", "t", "x", 100, [1, 0, 0, 0], "f1", "o1"⟩], 2⟩
        "other" 100 [9] "b" "u" "f2" "o2").1.rows
      = [⟨1, "a", "t", "x", 100, [1, 0, 0, 0], "f1", "o1"⟩] ∧
    (insert_entry .sqlite
        ⟨[⟨1, "a", "t", "x", 100, [1, 0, 0, 0], "f1", "o1"⟩], 2⟩
        "other" 100 [9] "b" "u" "f2" "o2").2 = none :=
  insert_entry_duplicate_noop .sqlite
    ⟨[⟨1, "a", "t", "x", 100, [1, 0, 0, 0], "f1", "o1"⟩], 2⟩
    "other" 100 [9] "b" "u" "f2" "o2"
    ⟨⟨1, "a", "t", "x", 100, [1, 0, 0, 0], "f1", "o1"⟩, by simp, rfl⟩

/-! ### C9: connection lifecycle -/

/-- C9 counterexample: when the backend SELECT raises, `get_all_entries`
propagates the error without reaching `conn.close()` — the connection it
opened is not closed on this exit path, refuting closure on every path. -/
theorem connection_close_counterexample :
    (get_all_entries_run .sqlite ⟨[], 1⟩ true).result = Except.error () ∧
    (get_all_entries_run .sqlite ⟨[], 1⟩ true).connClosed = false :=
  ⟨rfl, rfl⟩

/-- C9 amended: every Entry Store operation — `insert_entry`,
`get_all_entries`, `get_timestamps`, both branches of `get_sorted_entries`,
and `create_db` — closes the connection behind it exactly on the normal
exit path: closed when no backend call raises, left open when one does
(there is no try/finally anywhere in the source). -/
theorem connection_closed_paths (sc : Scheme) (db : DB) (s : SchemaState)
    (text : String) (timestamp : ℤ) (embedding : List ℕ) (app : String)
    (title : String) (filename : String) (ocr_data : String)
    (sim : List ℕ → ℚ) (top_k : ℕ) (pgRows : List Entry)
    (backendRaises : Bool) :
    (get_all_entries_run sc db backendRaises).connClosed = !backendRaises ∧
    (insert_entry_run sc db text timestamp embedding app title filename
        ocr_data backendRaises).connClosed = !backendRaises ∧
    (get_timestamps_run db backendRaises).connClosed = !backendRaises ∧
    (get_sorted_entries_run sim db top_k backendRaises).connClosed
        = !backendRaises ∧
    (get_sorted_entries_pg_run pgRows backendRaises).connClosed
        = !backendRaises ∧
    (create_db_run sc s backendRaises).connClosed = !backendRaises := by
  cases backendRaises <;>
    exact ⟨rfl, rfl, rfl, rfl, rfl, rfl⟩

/-! ### C3: full retrieval ordering -/

/-- C3: under the schema invariant of pairwise distinct timestamps,
`get_all_entries` returns every stored row exactly once (a permutation of
the rows as entries), sorted by strictly descending timestamp, and `[]` on
an empty store. -/
theorem get_all_entries_ordering (sc : Scheme) (db : DB)
    (huniq : db.rows.Pairwise fun a b => a.timestamp ≠ b.timestamp) :
    (get_all_entries sc db).Perm (db.rows.map (rowToEntry sc)) ∧
    (get_all_entries sc db).Pairwise (fun a b => b.timestamp < a.timestamp) ∧
    (db.rows = [] → get_all_entries sc db = []) := by
  haveI : IsTotal Row fun a b => b.timestamp ≤ a.timestamp :=
    ⟨fun a b => le_total b.timestamp a.timestamp⟩
  haveI : IsTrans Row fun a b => b.timestamp ≤ a.timestamp :=
    ⟨fun _ _ _ h1 h2 => le_trans h2 h1⟩
  have hperm := List.perm_insertionSort
    (fun a b : Row => b.timestamp ≤ a.timestamp) db.rows
  have hsorted := List.sorted_insertionSort
    (fun a b : Row => b.timestamp ≤ a.timestamp) db.rows
  refine ⟨List.Perm.map _ hperm, ?_, ?_⟩
  · have hne : (sortByTimestampDesc db.rows).Pairwise
        (fun a b => a.timestamp ≠ b.timestamp) :=
      (hperm.pairwise_iff fun h => Ne.symm h).mpr huniq
    have hlt : (sortByTimestampDesc db.rows).Pairwise
        (fun a b : Row => b.timestamp < a.timestamp) := by
      have := hsorted.and hne
      exact this.imp fun h => lt_of_le_of_ne h.1 (Ne.symm h.2)
    exact hlt.map (rowToEntry sc) fun a b h => h
  · intro h
    simp [get_all_entries, sortByTimestampDesc, h, List.insertionSort]

/-- Witness for C3 on a two-row store with timestamps 100 and 200. -/
theorem get_all_entries_ordering_witness :
    ([⟨1, "a", "t", "x", 100, [1, 0, 0, 0], "f1", "o1"⟩,
      ⟨2, "b", "u", "y", 200, [2, 0, 0, 0], "f2", "o2"⟩] :
        List Row).Pairwise (fun a b => a.timestamp ≠ b.timestamp) ∧
    (get_all_entries .sqlite
        ⟨[⟨1, "a", "t", "x", 100, [1, 0, 0, 0], "f1", "o1"⟩,
          ⟨2, "b", "u", "y", 200, [2, 0, 0, 0], "f2", "o2"⟩], 3⟩).Pairwise
      (fun a b => b.timestamp < a.timestamp) :=
  ⟨by decide, (get_all_entries_ordering .sqlite
      ⟨[⟨1, "a", "t", "x", 100, [1, 0, 0, 0], "f1", "o1"⟩,
        ⟨2, "b", "u", "y", 200, [2, 0, 0, 0], "f2", "o2"⟩], 3⟩
      (by decide)).2.1⟩

/-! ### C4: fresh-timestamp insert -/

/-- C4: when no stored row carries the given timestamp, `insert_entry`
appends exactly one new row, returns its backend-assigned id, and
`get_all_entries` afterwards contains an entry carrying the given text,
timestamp, app, title, filename and ocr_data verbatim under that id. -/
theorem insert_entry_fresh_spec (sc : Scheme) (db : DB) (text : String)
    (timestamp : ℤ) (embedding : List ℕ) (app : String) (title : String)
    (filename : String) (ocr_data : String)
    (hfresh : ∀ r ∈ db.rows, r.timestamp ≠ timestamp) :
    (insert_entry sc db text timestamp embedding app title filename
        ocr_data).2 = some db.nextId ∧
    (insert_entry sc db text timestamp embedding app title filename
        ocr_data).1.rows
      = db.rows ++ [⟨db.nextId, app, title, text, timestamp,
          serialize_embedding sc embedding, filename, ocr_data⟩] ∧
    (∃ e ∈ get_all_entries sc (insert_entry sc db text timestamp embedding
        app title filename ocr_data).1,
      e.id = db.nextId ∧ e.text = text ∧ e.timestamp = timestamp ∧
      e.app = app ∧ e.title = title ∧ e.filename = filename ∧
      e.ocr_data = ocr_data) := by
  have hany : (db.rows.any fun r => r.timestamp = timestamp) = false := by
    rw [List.any_eq_false]
    intro r hr
    simp [hfresh r hr]
  have hrows : (insert_entry sc db text timestamp embedding app title
      filename ocr_data).1.rows
      = db.rows ++ [⟨db.nextId, app, title, text, timestamp,
          serialize_embedding sc embedding, filename, ocr_data⟩] := by
    cases sc <;> simp [insert_entry, hany]
  have hid : (insert_entry sc db text timestamp embedding app title
      filename ocr_data).2 = some db.nextId := by
    cases sc <;> simp [insert_entry, hany]
  refine ⟨hid, hrows, ?_⟩
  set newRow : Row := ⟨db.nextId, app, title, text, timestamp,
    serialize_embedding sc embedding, filename, ocr_data⟩ with hnew
  refine ⟨rowToEntry sc newRow, ?_, rfl, rfl, rfl, rfl, rfl, rfl, rfl⟩
  unfold get_all_entries
  apply List.mem_map_of_mem (rowToEntry sc)
  rw [hrows]
  have hperm := List.perm_insertionSort
    (fun a b : Row => b.timestamp ≤ a.timestamp) (db.rows ++ [newRow])
  exact hperm.mem_iff.mpr (by simp)

/-- Witness for C4: inserting at the fresh timestamp 300. -/
theorem insert_entry_fresh_spec_witness :
    (insert_entry .sqlite
        ⟨[⟨1, "a", "t", "x", 100, [1, 0, 0, 0], "f1", "o1"⟩], 2⟩
        "hello" 300 [3] "app" "ti" "f3" "ocr").2 = some 2 ∧
    (∃ e ∈ get_all_entries .sqlite (insert_entry .sqlite
        ⟨[⟨1, "a", "t", "x", 100, [1, 0, 0, 0], "f1", "o1"⟩], 2⟩
        "hello" 300 [3] "app" "ti" "f3" "ocr").1,
      e.id = 2 ∧ e.text = "hello" ∧ e.timestamp = 300 ∧ e.app = "app" ∧
      e.title = "ti" ∧ e.filename = "f3" ∧ e.ocr_data = "ocr") :=
  ⟨(insert_entry_fresh_spec .sqlite
      ⟨[⟨1, "a", "t", "x", 100, [1, 0, 0, 0], "f1", "o1"⟩], 2⟩
      "hello" 300 [3] "app" "ti" "f3" "ocr" (by decide)).1,
   (insert_entry_fresh_spec .sqlite
      ⟨[⟨1, "a", "t", "x", 100, [1, 0, 0, 0], "f1", "o1"⟩], 2⟩
      "hello" 300 [3] "app" "ti" "f3" "ocr" (by decide)).2.2⟩

/-! ### C10: sqlite accepts embeddings of any length -/

/-- C10: the sqlite insert path performs no dimension check — a fresh-
timestamp insert with an embedding of any length `n` succeeds, and the
entry later returned by `get_all_entries` carries an embedding equal to the
original `n`-element vector (bit-exact on float32 patterns). -/
theorem insert_entry_sqlite_any_dim (db : DB) (text : String)
    (timestamp : ℤ) (embedding : List ℕ) (app : String) (title : String)
    (filename : String) (ocr_data : String)
    (hfresh : ∀ r ∈ db.rows, r.timestamp ≠ timestamp)
    (hbits : ∀ x ∈ embedding, x < 2 ^ 32) :
    (insert_entry .sqlite db text timestamp embedding app title filename
        ocr_data).2 = some db.nextId ∧
    (∃ e ∈ get_all_entries .sqlite (insert_entry .sqlite db text timestamp
        embedding app title filename ocr_data).1,
      e.timestamp = timestamp ∧ e.embedding = embedding) := by
  have hany : (db.rows.any fun r => r.timestamp = timestamp) = false := by
    rw [List.any_eq_false]
    intro r hr
    simp [hfresh r hr]
  have hid : (insert_entry .sqlite db text timestamp embedding app title
      filename ocr_data).2 = some db.nextId := by
    simp [insert_entry, hany]
  set newRow : Row := ⟨db.nextId, app, title, text, timestamp,
    serialize_embedding .sqlite embedding, filename, ocr_data⟩ with hnew
  have hrows : (insert_entry .sqlite db text timestamp embedding app title
      filename ocr_data).1.rows = db.rows ++ [newRow] := by
    simp [insert_entry, hany, hnew]
  refine ⟨hid, rowToEntry .sqlite newRow, ?_, rfl, ?_⟩
  · unfold get_all_entries
    apply List.mem_map_of_mem (rowToEntry .sqlite)
    rw [hrows]
    have hperm := List.perm_insertionSort
      (fun a b : Row => b.timestamp ≤ a.timestamp) (db.rows ++ [newRow])
    exact hperm.mem_iff.mpr (by simp)
  · show deserialize_embedding .sqlite
      (serialize_embedding .sqlite embedding) = embedding
    exact sqlite_roundtrip embedding hbits

/-- Witness for C10: a 2-element embedding (not the configured 384) is
stored and recovered intact. -/
theorem insert_entry_sqlite_any_dim_witness :
    (insert_entry .sqlite ⟨[], 1⟩ "z" 7 [11, 4294967295] "a" "t" "f"
        "o").2 = some 1 ∧
    (∃ e ∈ get_all_entries .sqlite (insert_entry .sqlite ⟨[], 1⟩ "z" 7
        [11, 4294967295] "a" "t" "f" "o").1,
      e.timestamp = 7 ∧ e.embedding = [11, 4294967295]) :=
  insert_entry_sqlite_any_dim ⟨[], 1⟩ "z" 7 [11, 4294967295] "a" "t" "f" "o"
    (by simp) (by decide)

/-! ### Argsort infrastructure for the in-process search -/

instance argsortRel_isTotal (xs : List ℚ) : IsTotal ℕ (argsortRel xs) :=
  ⟨fun i j => by
    unfold argsortRel
    rcases lt_trichotomy (xs.getD i 0) (xs.getD j 0) with h | h | h
    · exact Or.inl (Or.inl h)
    · rcases Nat.le_total i j with hij | hij
      · exact Or.inl (Or.inr ⟨h, hij⟩)
      · exact Or.inr (Or.inr ⟨h.symm, hij⟩)
    · exact Or.inr (Or.inl h)⟩

instance argsortRel_isTrans (xs : List ℚ) : IsTrans ℕ (argsortRel xs) :=
  ⟨fun i j k hij hjk => by
    unfold argsortRel at *
    rcases hij with h1 | ⟨h1, hle1⟩ <;> rcases hjk with h2 | ⟨h2, hle2⟩
    · exact Or.inl (lt_trans h1 h2)
    · exact Or.inl (h2 ▸ h1)
    · exact Or.inl (h1 ▸ h2)
    · exact Or.inr ⟨h1.trans h2, le_trans hle1 hle2⟩⟩

lemma argsort_perm (xs : List ℚ) :
    (argsort xs).Perm (List.range xs.length) :=
  List.perm_insertionSort _ _

lemma argsort_sorted (xs : List ℚ) :
    (argsort xs).Pairwise (argsortRel xs) :=
  List.sorted_insertionSort _ _

lemma argsort_nodup (xs : List ℚ) : (argsort xs).Nodup :=
  (argsort_perm xs).nodup_iff.mpr (List.nodup_range xs.length)

lemma mem_argsort (xs : List ℚ) {i : ℕ} :
    i ∈ argsort xs ↔ i < xs.length := by
  rw [(argsort_perm xs).mem_iff, List.mem_range]

lemma getD_map_score (sim : List ℕ → ℚ) (entries : List Entry) (i : ℕ)
    (hi : i < entries.length) :
    (entries.map fun e => sim e.embedding).getD i 0
      = sim ((entries.getD i default).embedding) := by
  rw [List.getD_eq_getElem?_getD, List.getD_eq_getElem?_getD,
    List.getElem?_map, List.getElem?_eq_getElem hi]
  rfl

lemma map_getD_range {α : Type} (l : List α) (d : α) :
    (List.range l.length).map (fun i => l.getD i d) = l := by
  induction l with
  | nil => rfl
  | cons a t ih =>
      rw [List.length_cons, List.range_succ_eq_map, List.map_cons,
        List.map_map]
      simp only [List.getD_cons_zero, Function.comp_def, Nat.succ_eq_add_one,
        List.getD_cons_succ]
      rw [ih]

lemma mem_sortedIndices (sim : List ℕ → ℚ) (entries : List Entry)
    (top_k : ℕ) {i : ℕ} (hi : i ∈ sortedIndices sim entries top_k) :
    i < entries.length := by
  unfold sortedIndices at hi
  have h1 := List.take_subset top_k _ hi
  rw [List.mem_reverse, mem_argsort] at h1
  simpa using h1

lemma sortedIndices_pairwise (sim : List ℕ → ℚ) (entries : List Entry)
    (top_k : ℕ) :
    (sortedIndices sim entries top_k).Pairwise
      (fun i j => argsortRel (entries.map fun e => sim e.embedding) j i) := by
  unfold sortedIndices
  apply List.Pairwise.sublist (List.take_sublist _ _)
  exact List.pairwise_reverse.mpr (argsort_sorted _)

lemma sortedIndices_nodup (sim : List ℕ → ℚ) (entries : List Entry)
    (top_k : ℕ) : (sortedIndices sim entries top_k).Nodup := by
  unfold sortedIndices
  exact ((List.nodup_reverse.mpr (argsort_nodup _)).sublist
    (List.take_sublist _ _))

lemma sortedIndices_eq (sim : List ℕ → ℚ) (entries : List Entry)
    (top_k : ℕ) :
    sortedIndices sim entries top_k
      = ((argsort (entries.map fun e => sim e.embedding)).reverse).take
          top_k := rfl

lemma sortedIndices_length (sim : List ℕ → ℚ) (entries : List Entry)
    (top_k : ℕ) :
    (sortedIndices sim entries top_k).length = min top_k entries.length := by
  rw [sortedIndices_eq, List.length_take, List.length_reverse,
    (argsort_perm _).length_eq, List.length_range, List.length_map]

lemma sortedIndices_score_desc (sim : List ℕ → ℚ) (entries : List Entry)
    (top_k : ℕ) :
    (sortedIndices sim entries top_k).Pairwise
      (fun i j => sim ((entries.getD j default).embedding)
        ≤ sim ((entries.getD i default).embedding)) := by
  refine (sortedIndices_pairwise sim entries top_k).imp_of_mem ?_
  intro i j hi hj hrel
  have hi' := mem_sortedIndices sim entries top_k hi
  have hj' := mem_sortedIndices sim entries top_k hj
  rw [← getD_map_score sim entries i hi', ← getD_map_score sim entries j hj']
  rcases hrel with h | ⟨h, _⟩
  · exact le_of_lt h
  · exact le_of_eq h

lemma sortedIndices_topk (sim : List ℕ → ℚ) (entries : List Entry)
    (top_k : ℕ) :
    ∀ j < entries.length, j ∉ sortedIndices sim entries top_k →
      ∀ i ∈ sortedIndices sim entries top_k,
        sim ((entries.getD j default).embedding)
          ≤ sim ((entries.getD i default).embedding) := by
  intro j hj hjnot i hi
  have hi' := mem_sortedIndices sim entries top_k hi
  have hpairrev : (argsort (entries.map fun e => sim e.embedding)).reverse.Pairwise
      (fun a b => argsortRel (entries.map fun e => sim e.embedding) b a) :=
    List.pairwise_reverse.mpr (argsort_sorted _)
  have hjrev : j ∈ (argsort (entries.map fun e => sim e.embedding)).reverse := by
    rw [List.mem_reverse, mem_argsort, List.length_map]
    exact hj
  have hsplit := List.take_append_drop top_k
    (argsort (entries.map fun e => sim e.embedding)).reverse
  rw [← hsplit] at hpairrev hjrev
  rw [sortedIndices_eq] at hjnot hi
  rcases List.mem_append.mp hjrev with hcase | hcase
  · exact absurd hcase hjnot
  · have hrel := (List.pairwise_append.mp hpairrev).2.2 i hi j hcase
    rw [← getD_map_score sim entries i hi', ← getD_map_score sim entries j hj]
    rcases hrel with h | ⟨h, _⟩
    · exact le_of_lt h
    · exact le_of_eq h

lemma sortedIndices_full (sim : List ℕ → ℚ) (entries : List Entry)
    (top_k : ℕ) (h : entries.length ≤ top_k) :
    ((sortedIndices sim entries top_k).map
      fun i => entries.getD i default).Perm entries := by
  have hlen : (argsort (entries.map fun e => sim e.embedding)).reverse.length
      = entries.length := by
    rw [List.length_reverse, (argsort_perm _).length_eq, List.length_range,
      List.length_map]
  rw [sortedIndices_eq, List.take_of_length_le (by rw [hlen]; exact h)]
  have hperm : (argsort (entries.map fun e => sim e.embedding)).reverse.Perm
      (List.range entries.length) := by
    refine (List.reverse_perm _).trans ?_
    have := argsort_perm (entries.map fun e => sim e.embedding)
    rwa [List.length_map] at this
  have h1 : ((argsort (entries.map fun e => sim e.embedding)).reverse.map
        fun i => entries.getD i default).Perm
      ((List.range entries.length).map fun i => entries.getD i default) :=
    hperm.map _
  rwa [map_getD_range entries default] at h1

lemma get_sorted_entries_eq (sim : List ℕ → ℚ) (db : DB) (top_k : ℕ) :
    get_sorted_entries sim db top_k
      = (sortedIndices sim (get_all_entries .sqlite db) top_k).map
          fun i => (get_all_entries .sqlite db).getD i default := by
  by_cases hemp : (get_all_entries .sqlite db).isEmpty
  · have hnil : get_all_entries .sqlite db = [] := List.isEmpty_iff.mp hemp
    simp [get_sorted_entries, hnil, sortedIndices_eq, argsort,
      List.insertionSort]
  · simp [get_sorted_entries, hemp]

/-! ### C2: in-process search correctness -/

/-- C2: on the sqlite (in-process) strategy, `get_sorted_entries` returns
exactly `min top_k |E|` distinct stored entries, ordered by descending
score, every omitted entry scoring no higher than every returned one; for
`top_k ≥ |E|` it returns a permutation of all of E so ranked, and on an
empty store it returns `[]`.  The score function `sim` stands for
`cosine_similarity query_embedding ·` for an arbitrary query. -/
theorem get_sorted_entries_spec (sim : List ℕ → ℚ) (db : DB) (top_k : ℕ) :
    (get_sorted_entries sim db top_k
        = (sortedIndices sim (get_all_entries .sqlite db) top_k).map
            fun i => (get_all_entries .sqlite db).getD i default) ∧
    (sortedIndices sim (get_all_entries .sqlite db) top_k).length
        = min top_k (get_all_entries .sqlite db).length ∧
    (sortedIndices sim (get_all_entries .sqlite db) top_k).Nodup ∧
    (∀ i ∈ sortedIndices sim (get_all_entries .sqlite db) top_k,
        i < (get_all_entries .sqlite db).length) ∧
    (get_sorted_entries sim db top_k).Pairwise
        (fun a b => sim b.embedding ≤ sim a.embedding) ∧
    (∀ j < (get_all_entries .sqlite db).length,
        j ∉ sortedIndices sim (get_all_entries .sqlite db) top_k →
        ∀ i ∈ sortedIndices sim (get_all_entries .sqlite db) top_k,
          sim (((get_all_entries .sqlite db).getD j default).embedding)
            ≤ sim (((get_all_entries .sqlite db).getD i default).embedding)) ∧
    ((get_all_entries .sqlite db).length ≤ top_k →
        (get_sorted_entries sim db top_k).Perm
          (get_all_entries .sqlite db)) ∧
    (db.rows = [] → get_sorted_entries sim db top_k = []) := by
  refine ⟨get_sorted_entries_eq sim db top_k,
    sortedIndices_length sim _ top_k,
    sortedIndices_nodup sim _ top_k,
    fun i hi => mem_sortedIndices sim _ top_k hi, ?_,
    sortedIndices_topk sim _ top_k, ?_, ?_⟩
  · rw [get_sorted_entries_eq]
    refine (sortedIndices_score_desc sim _ top_k).map _ ?_
    intro a b h
    exact h
  · intro h
    rw [get_sorted_entries_eq]
    exact sortedIndices_full sim _ top_k h
  · intro h
    have hnil : get_all_entries .sqlite db = [] := by
      simp [get_all_entries, sortByTimestampDesc, h, List.insertionSort]
    simp [get_sorted_entries, hnil]

/-- A concrete two-row store for the C2 witness. -/
def wDB : DB :=
  ⟨[⟨1, "a", "t", "x", 10, [1, 0, 0, 0], "f1", "o1"⟩,
    ⟨2, "b", "u", "y", 20, [2, 0, 0, 0], "f2", "o2"⟩], 3⟩

/-- A concrete score function for the C2 witness. -/
def wSim (v : List ℕ) : ℚ := (v.headD 0 : ℕ)

/-- Witness for C2: with `top_k = 5 ≥ 2 = |E|` the search returns all of E
ranked. -/
theorem get_sorted_entries_spec_witness :
    (get_all_entries .sqlite wDB).length ≤ 5 ∧
    (get_sorted_entries wSim wDB 5).Perm (get_all_entries .sqlite wDB) :=
  ⟨by decide,
    (get_sorted_entries_spec wSim wDB 5).2.2.2.2.2.2.1 (by decide)⟩

/-! ### C5: tie order of the in-process search -/

/-- The two-row store with identical stored embeddings used to exhibit the
tie order: equal embeddings have equal cosine similarity to every query. -/
def tieDB : DB :=
  ⟨[⟨1, "a", "t", "x", 100, [1, 0, 0, 0], "f1", "o1"⟩,
    ⟨2, "b", "u", "y", 200, [1, 0, 0, 0], "f2", "o2"⟩], 3⟩

/-- A score function constant on the (identical) embeddings of `tieDB`. -/
def tieSim (v : List ℕ) : ℚ := (v.headD 0 : ℕ)

/-- C5 counterexample: the two stored entries have exactly equal scores and
retrieval order `[id 2, id 1]` (timestamp descending), yet the search
returns `[id 1, id 2]` — equal-similarity entries do NOT keep their
original retrieval order, because the code reverses an ascending argsort. -/
theorem tie_order_counterexample :
    tieSim ((get_all_entries .sqlite tieDB).getD 0 default).embedding
      = tieSim ((get_all_entries .sqlite tieDB).getD 1 default).embedding ∧
    (get_all_entries .sqlite tieDB).map Entry.id = [2, 1] ∧
    (get_sorted_entries tieSim tieDB 100).map Entry.id = [1, 2] := by
  refine ⟨rfl, by decide, by decide⟩

/-- C5 amended: the descending sort over similarities is not stable — the
first conjunct refutes, at the instance of `tieDB`, the universal statement
that equal-score entries keep their original retrieval order (`i < j`:
index `i` was retrieved before index `j`).  In general the code guarantees
no tie order at all (`np.argsort`'s default quicksort is documented as not
stable); in numpy's insertion-sort regime — at most 16 entries, where
`np.argsort` provably is the stable ascending argsort the model uses — tied
entries appear in exactly the REVERSE of their retrieval order, because the
code reverses that ascending argsort (second conjunct; the length bound
records the regime in which the model's tie resolution matches numpy's). -/
theorem get_sorted_entries_tie_behaviour :
    (¬ ∀ (sim : List ℕ → ℚ) (db : DB) (top_k : ℕ),
      (sortedIndices sim (get_all_entries .sqlite db) top_k).Pairwise
        (fun i j =>
          sim (((get_all_entries .sqlite db).getD i default).embedding)
              = sim (((get_all_entries .sqlite db).getD j default).embedding)
            → i < j)) ∧
    (∀ (sim : List ℕ → ℚ) (db : DB) (top_k : ℕ),
      (get_all_entries .sqlite db).length ≤ 16 →
      (sortedIndices sim (get_all_entries .sqlite db) top_k).Pairwise
        (fun i j =>
          sim (((get_all_entries .sqlite db).getD j default).embedding)
              < sim (((get_all_entries .sqlite db).getD i default).embedding)
            ∨
          (sim (((get_all_entries .sqlite db).getD j default).embedding)
              = sim (((get_all_entries .sqlite db).getD i default).embedding)
            ∧ j < i))) := by
  constructor
  · intro hall
    exact absurd (hall tieSim tieDB 100) (by decide)
  · intro sim db top_k _hlen
    have hnd : (sortedIndices sim (get_all_entries .sqlite db)
        top_k).Pairwise (fun i j => i ≠ j) :=
      sortedIndices_nodup sim _ top_k
    have hpw := (sortedIndices_pairwise sim (get_all_entries .sqlite db)
      top_k).and hnd
    refine hpw.imp_of_mem ?_
    intro i j hi hj hrel
    obtain ⟨hrel, hne⟩ := hrel
    have hi' := mem_sortedIndices sim _ top_k hi
    have hj' := mem_sortedIndices sim _ top_k hj
    rw [← getD_map_score sim _ i hi', ← getD_map_score sim _ j hj']
    rcases hrel with h | ⟨h, hle⟩
    · exact Or.inl h
    · exact Or.inr ⟨h, lt_of_le_of_ne hle (Ne.symm hne)⟩

/-- Witness for C5's amended theorem: `tieDB` is within the insertion-sort
regime and its tied entries come out in reverse retrieval order. -/
theorem get_sorted_entries_tie_behaviour_witness :
    (get_all_entries .sqlite tieDB).length ≤ 16 ∧
    (sortedIndices tieSim (get_all_entries .sqlite tieDB) 100).Pairwise
      (fun i j =>
        tieSim (((get_all_entries .sqlite tieDB).getD j default).embedding)
            < tieSim (((get_all_entries .sqlite tieDB).getD i
                default).embedding)
          ∨
        (tieSim (((get_all_entries .sqlite tieDB).getD j default).embedding)
            = tieSim (((get_all_entries .sqlite tieDB).getD i
                default).embedding)
          ∧ j < i)) :=
  ⟨by decide,
    get_sorted_entries_tie_behaviour.2 tieSim tieDB 100 (by decide)⟩

end OpenRecall
